import Mathlib

/-!
# Verification of the `triplestore` library

A shallow embedding of the Go package `triplestore` (files `rdf.go` and
`codec.go`), together with proofs about its triple model, its binary codec,
its N-Triples encoder and its dataset decoder.

Go byte strings are modelled as `List Nat` with every element below 256
(the encoders only ever emit such lists; the decoders are total on all
`List Nat` inputs, with lemmas taking byte-validity hypotheses where the
arithmetic needs them).  Fallible operations return explicit error values.
The `Source`/`Snapshot` store and the N-Triples lexer are not part of the
sources at hand (only their tests are), so those two components are
modelled from the specification, as marked on their definitions.
-/

namespace Triplestore

/-- From `rdf.go`: `type literal struct { typ, val string }`. -/
structure literal where
  typ : List Nat
  val : List Nat
deriving DecidableEq, Repr

/-- From `rdf.go`: `type object struct { isLit bool; resourceID string; lit literal }`. -/
structure object where
  isLit : Bool
  resourceID : List Nat
  lit : literal
deriving DecidableEq, Repr

/-- From `rdf.go`: `type triple struct { sub subject; pred predicate; obj object }`. -/
structure triple where
  sub : List Nat
  pred : List Nat
  obj : object
deriving DecidableEq, Repr

/-- From `rdf.go`, `func (o object) Equal(other Object) bool`: compares the
literal flag first, then either the `(typ, val)` pair (literal variant) or
the `resourceID` string (resource variant). -/
def object.Equal (o other : object) : Bool :=
  if o.isLit != other.isLit then false
  else if o.isLit then
    o.lit.typ == other.lit.typ && o.lit.val == other.lit.val
  else if (!o.isLit) != (!other.isLit) then false
  else if !o.isLit then o.resourceID == other.resourceID
  else true

/-- From `rdf.go`, `func (t *triple) Equal(other Triple) bool`, restricted to
two non-nil receivers: subject, then predicate, then object. -/
def triple.Equal (t other : triple) : Bool :=
  if t.sub != other.sub then false
  else if t.pred != other.pred then false
  else t.obj.Equal other.obj

/-- From `rdf.go`, `func (t *triple) Equal(other Triple) bool`, including the
nil cases: a nil receiver equals exactly a nil argument (`none` models a
nil `*triple`). -/
def triple.EqualOpt : Option triple → Option triple → Bool
  | none, other => other.isNone
  | some _, none => false
  | some t, some o => t.Equal o

/-- From `rdf.go`: `XsdString = "xsd:string"` (byte list of the Go string). -/
def str (s : String) : List Nat := s.toList.map Char.toNat

def XsdString : List Nat := str "xsd:string"
def XsdBoolean : List Nat := str "xsd:boolean"
def XsdInteger : List Nat := str "xsd:integer"

/-- Modelled from the spec: the constant `XsdDateTime` is referenced by the
N-Triples encoder in `codec.go` but its declaration is not among the source
files at hand; §6 of the spec records dateTime as one of the canonical
`xsd:` tags alongside `xsd:string`/`xsd:boolean`/`xsd:integer`. -/
def XsdDateTime : List Nat := str "xsd:dateTime"

/-! ## Binary codec (`codec.go`) -/

/-- Big-endian `uint32` serialization: `binary.Write(w, binary.BigEndian,
wordLength(n))` where `wordLength` is `uint32`, so the value is reduced
modulo `2^32` first. -/
def w32 (n : Nat) : List Nat :=
  let m := n % 2 ^ 32
  [m / 2 ^ 24, m / 2 ^ 16 % 256, m / 2 ^ 8 % 256, m % 256]

/-- Big-endian `uint32` deserialization of four bytes. -/
def beU32 (b0 b1 b2 b3 : Nat) : Nat :=
  ((b0 * 256 + b1) * 256 + b2) * 256 + b3

/-- From `codec.go`, `func encodeTriple(t Triple) ([]byte, error)`: each
word is a `uint32` big-endian length followed by the raw bytes; the object
is tagged `1` (literal: type word then value word) or `0` (resource: one
word).  The Go function never returns a non-nil error. -/
def encodeTriple (t : triple) : List Nat :=
  w32 t.sub.length ++ t.sub ++
  w32 t.pred.length ++ t.pred ++
  (if t.obj.isLit then
    1 :: (w32 t.obj.lit.typ.length ++ t.obj.lit.typ ++
          w32 t.obj.lit.val.length ++ t.obj.lit.val)
  else
    0 :: (w32 t.obj.resourceID.length ++ t.obj.resourceID))

namespace binaryEncoder

/-- From `codec.go`, `func (enc *binaryEncoder) Encode(tris ...Triple) error`:
writes each triple's encoding in order (write errors of the underlying
sink are outside this pure model). -/
def Encode (tris : List triple) : List Nat :=
  (tris.map encodeTriple).flatten

end binaryEncoder

/-- Errors produced while reading one length-prefixed word.  `eof` models
`io.EOF` from `binary.Read` on an empty stream, `unexpectedEOF` models
`io.ErrUnexpectedEOF` from `binary.Read` on a stream of 1–3 bytes, and
`cannotDecodeWord` models the error `errors.New("triplestore: binary:
cannot decode word")` that `readWord` substitutes for any `io.ReadFull`
failure. -/
inductive WordErr where
  | eof
  | unexpectedEOF
  | cannotDecodeWord
deriving DecidableEq, Repr

/-- The Go error strings behind `WordErr`. -/
def WordErr.message : WordErr → String
  | .eof => "EOF"
  | .unexpectedEOF => "unexpected EOF"
  | .cannotDecodeWord => "triplestore: binary: cannot decode word"

/-- The six decoding positions whose failures `decodeTriple` labels. -/
inductive Field where
  | subject
  | predicate
  | objectType
  | resource
  | literalType
  | literalValue
deriving DecidableEq, Repr

/-- The label `decodeTriple` puts in front of the wrapped error
(`fmt.Errorf("subject: %s", err)` and friends; note the source's
"literate" spellings). -/
def Field.label : Field → String
  | .subject => "subject"
  | .predicate => "predicate"
  | .objectType => "object type"
  | .resource => "resource"
  | .literalType => "literate type"
  | .literalValue => "literate"

/-- A decoding error: which field failed, and the underlying read error. -/
structure DecErr where
  field : Field
  cause : WordErr
deriving DecidableEq, Repr

/-- The full Go error string, e.g. `"subject: unexpected EOF"`. -/
def DecErr.message (e : DecErr) : String :=
  e.field.label ++ ": " ++ e.cause.message

namespace binaryDecoder

/-- From `codec.go`, `func (dec *binaryDecoder) readWord() ([]byte, error)`:
read a 4-byte big-endian length, then exactly that many bytes.  Returns
the word and the unread remainder of the stream. -/
def readWord : List Nat → Except WordErr (List Nat × List Nat)
  | [] => .error .eof
  | [_] => .error .unexpectedEOF
  | [_, _] => .error .unexpectedEOF
  | [_, _, _] => .error .unexpectedEOF
  | b0 :: b1 :: b2 :: b3 :: rest =>
    let len := beU32 b0 b1 b2 b3
    if rest.length < len then .error .cannotDecodeWord
    else .ok (rest.take len, rest.drop len)

/-- Outcome of `decodeTriple`: clean end of stream, one decoded triple plus
the remaining stream, or a labelled error. -/
inductive StepResult where
  | done
  | ok (t : triple) (rest : List Nat)
  | err (e : DecErr)
deriving DecidableEq, Repr

/-- From `codec.go`, `func (dec *binaryDecoder) decodeTriple() (bool, error)`:
subject word (an `io.EOF` right here means a clean stop), predicate word,
one object-kind byte, then either one resource word (kind `0`) or a
literal type word and a literal value word (any other kind). -/
def decodeTriple (s : List Nat) : StepResult :=
  match readWord s with
  | .error .eof => .done
  | .error e => .err ⟨.subject, e⟩
  | .ok (sub, s1) =>
    match readWord s1 with
    | .error e => .err ⟨.predicate, e⟩
    | .ok (pred, s2) =>
      match s2 with
      | [] => .err ⟨.objectType, .eof⟩
      | objType :: s3 =>
        if objType = 0 then
          match readWord s3 with
          | .error e => .err ⟨.resource, e⟩
          | .ok (resource, s4) =>
            .ok ⟨sub, pred, ⟨false, resource, ⟨[], []⟩⟩⟩ s4
        else
          match readWord s3 with
          | .error e => .err ⟨.literalType, e⟩
          | .ok (litType, s4) =>
            match readWord s4 with
            | .error e => .err ⟨.literalValue, e⟩
            | .ok (val, s5) =>
              .ok ⟨sub, pred, ⟨true, [], ⟨litType, val⟩⟩⟩ s5

/-- The decode loop of `func (dec *binaryDecoder) Decode() ([]Triple, error)`:
accumulate triples until `decodeTriple` reports a clean stop, and on any
error return `nil` triples together with that error.  `fuel` only bounds
the recursion; every successful step consumes at least one byte, so
`s.length + 1` units are always enough (`decodeLoop_fuel` below). -/
def decodeLoop : Nat → List Nat → List triple → List triple × Option DecErr
  | 0, _, acc => (acc, none)
  | fuel + 1, s, acc =>
    match decodeTriple s with
    | .done => (acc, none)
    | .err e => ([], some e)
    | .ok t rest => decodeLoop fuel rest (acc ++ [t])

/-- From `codec.go`, `func (dec *binaryDecoder) Decode() ([]Triple, error)`. -/
def Decode (s : List Nat) : List triple × Option DecErr :=
  decodeLoop (s.length + 1) s []

end binaryDecoder

/-- The wire frame of a resource triple: both words, the kind byte `0`,
and the resource word. -/
def resFrame (sub pred rid : List Nat) : List Nat :=
  w32 sub.length ++ sub ++ w32 pred.length ++ pred ++
  0 :: (w32 rid.length ++ rid)

/-- The wire frame of a literal triple with kind byte `k`: both words, the
kind byte, the type word and the value word.  The encoder always writes
`k = 1`, but the decoder accepts any `k ≠ 0` here. -/
def litFrame (k : Nat) (sub pred typ val : List Nat) : List Nat :=
  w32 sub.length ++ sub ++ w32 pred.length ++ pred ++
  k :: (w32 typ.length ++ typ ++ w32 val.length ++ val)

/-- The streams on which the binary decode loop reaches end-of-stream
exactly at a triple boundary: concatenations of complete triple frames
(with in-range word lengths and, for literals, a nonzero kind byte). -/
inductive Frames : List Nat → Prop where
  | nil : Frames []
  | res (sub pred rid rest : List Nat)
      (hs : sub.length < 2 ^ 32) (hp : pred.length < 2 ^ 32)
      (hr : rid.length < 2 ^ 32) (h : Frames rest) :
      Frames (resFrame sub pred rid ++ rest)
  | lit (k : Nat) (sub pred typ val rest : List Nat) (hk : k ≠ 0)
      (hs : sub.length < 2 ^ 32) (hp : pred.length < 2 ^ 32)
      (ht : typ.length < 2 ^ 32) (hv : val.length < 2 ^ 32)
      (h : Frames rest) :
      Frames (litFrame k sub pred typ val ++ rest)

/-- All elements of the list are bytes.  Encoders only produce such lists;
decoder lemmas assume it where the length arithmetic needs it. -/
abbrev byteValid (s : List Nat) : Prop := ∀ b ∈ s, b < 256

/-- Every length the encoder is about to write fits in the `uint32` length
prefix (on triples violating this, `wordLength(len(...))` wraps around). -/
abbrev fieldsSmall (t : triple) : Prop :=
  t.sub.length < 2 ^ 32 ∧ t.pred.length < 2 ^ 32 ∧
  t.obj.resourceID.length < 2 ^ 32 ∧
  t.obj.lit.typ.length < 2 ^ 32 ∧ t.obj.lit.val.length < 2 ^ 32

/-- What the binary decoder reconstructs from a triple's frame: the active
variant's data survives, the inactive variant's fields come back as the Go
zero values.  `canon t` is `Equal` to `t` (`Equal` never looks at inactive
fields) but not always structurally identical to it. -/
def canon (t : triple) : triple :=
  if t.obj.isLit then ⟨t.sub, t.pred, ⟨true, [], t.obj.lit⟩⟩
  else ⟨t.sub, t.pred, ⟨false, t.obj.resourceID, ⟨[], []⟩⟩⟩

/-- Remove the first element of the list that is `Equal` to `t`, if any. -/
def removeFirst (t : triple) : List triple → Option (List triple)
  | [] => none
  | u :: rest =>
    if t.Equal u then some rest else (removeFirst t rest).map (u :: ·)

/-- Multiset equality of two triple lists under `triple.Equal`: each
element of the second list is matched against and removed from the first,
and both must be exhausted together. -/
def multisetEqual : List triple → List triple → Bool
  | l1, [] => l1.isEmpty
  | l1, t :: r2 =>
    match removeFirst t l1 with
    | none => false
    | some l1r => multisetEqual l1r r2

/-- The binary round-trip property for one list of triples: encoding then
decoding must succeed and give back a list that is multiset-equal (under
`triple.Equal`) to the input. -/
def roundTripOK (ts : List triple) : Bool :=
  match binaryDecoder.Decode (binaryEncoder.Encode ts) with
  | (l, none) => multisetEqual l ts
  | (_, some _) => false

/-- The field in whose wire region byte offset `n` of `encodeTriple t`
falls (for `0 ≤ n < (encodeTriple t).length`; each region starts at its
length-prefix byte, the object-kind region is the single kind byte). -/
def truncField (t : triple) (n : Nat) : Field :=
  if n < 4 + t.sub.length then .subject
  else if n < 8 + t.sub.length + t.pred.length then .predicate
  else if n < 9 + t.sub.length + t.pred.length then .objectType
  else if t.obj.isLit then
    (if n < 13 + t.sub.length + t.pred.length + t.obj.lit.typ.length then
      .literalType
    else .literalValue)
  else .resource

/-- How far into its own wire region (starting at that region's first
byte) offset `n` of `encodeTriple t` lies. -/
def truncOff (t : triple) (n : Nat) : Nat :=
  if n < 4 + t.sub.length then n
  else if n < 8 + t.sub.length + t.pred.length then
    n - (4 + t.sub.length)
  else if n < 9 + t.sub.length + t.pred.length then 0
  else if t.obj.isLit then
    (if n < 13 + t.sub.length + t.pred.length + t.obj.lit.typ.length then
      n - (9 + t.sub.length + t.pred.length)
    else
      n - (13 + t.sub.length + t.pred.length + t.obj.lit.typ.length))
  else n - (9 + t.sub.length + t.pred.length)

/-- The read error a word read produces when the stream ends `off` bytes
into its region: `eof` when no byte arrived, `unexpectedEOF` when 1–3
length-prefix bytes arrived, `cannotDecodeWord` when the word body was
short. -/
def causeOfOff (off : Nat) : WordErr :=
  if off = 0 then .eof
  else if off < 4 then .unexpectedEOF
  else .cannotDecodeWord

/-- The read error produced when the stream ends at offset `n` of
`encodeTriple t`. -/
def truncCause (t : triple) (n : Nat) : WordErr :=
  causeOfOff (truncOff t n)

/-! ## N-Triples encoder (`codec.go`) -/

namespace ntriplesEncoder

/-- The `switch lit.Type()` of `func (enc *ntriplesEncoder) Encode(tris
...Triple) error` in `codec.go`: only the three recognized tags get a
canonical datatype IRI suffix, every other tag (the `switch` default,
`XsdString` included) gets none. -/
def ntSuffix (typ : List Nat) : List Nat :=
  if typ = XsdBoolean then
    str "^^<http://www.w3.org/2001/XMLSchema#boolean>"
  else if typ = XsdDateTime then
    str "^^<http://www.w3.org/2001/XMLSchema#dateTime>"
  else if typ = XsdInteger then
    str "^^<http://www.w3.org/2001/XMLSchema#integer>"
  else []

/-- The loop body of `func (enc *ntriplesEncoder) Encode(tris ...Triple)
error` in `codec.go`: `<subject> <predicate> `, then the resource in
angle brackets if the object is a resource, then the quoted literal value
with the `switch`-selected datatype suffix if the object is a literal,
then `\" .\\n\"`. -/
def encodeLine (t : triple) : List Nat :=
  str "<" ++ t.sub ++ str "> <" ++ t.pred ++ str "> " ++
  (if !t.obj.isLit then str "<" ++ t.obj.resourceID ++ str ">" else []) ++
  (if t.obj.isLit then
    str "\"" ++ t.obj.lit.val ++ str "\"" ++ ntSuffix t.obj.lit.typ
   else []) ++
  str " .\n"

/-- From `codec.go`, `func (enc *ntriplesEncoder) Encode(tris ...Triple)
error`: one line per triple, in order. -/
def Encode (tris : List triple) : List Nat :=
  (tris.map encodeLine).flatten

end ntriplesEncoder

/-! ## Dataset decoder (`codec.go`) -/

namespace datasetDecoder

/-- From `codec.go`, `func (dec *datasetDecoder) Decode() ([]Triple,
error)`: run the decoder over every stream, concatenate all triple slices
(failed streams included — the binary decoder hands back `nil` for
those), and surface `errs[0]` when at least one stream failed.  The Go
original receives the per-stream results over a channel in nondeterministic
order; this model fixes the stream order, which the spec leaves
unspecified anyway. -/
def Decode (d : List Nat → List triple × Option DecErr)
    (rs : List (List Nat)) : List triple × Option DecErr :=
  let results := rs.map d
  ((results.map Prod.fst).flatten, (results.filterMap Prod.snd).head?)

end datasetDecoder

/-! ## Source and Snapshot

The store itself is not among the source files at hand (only
`struct_test.go` exercises it), so it is modelled from the spec. -/

/-- Modelled from the spec: `Source` (§3, §4.1), the sole mutable entity,
holding the triples added so far.  Its indexes are derived data and are
not needed for the counting claims. -/
structure Source where
  triples : List triple

/-- Modelled from the spec: `Snapshot` (§3, §4.1), an immutable view of a
`Source` at the moment of creation. -/
structure Snapshot where
  triples : List triple

/-- Modelled from the spec: `NewSource()` creates an empty store. -/
def NewSource : Source := ⟨[]⟩

/-- Modelled from the spec (§4.1): `Add(triples...)` appends each triple
to the store; duplicates are permitted, `Add` never fails. -/
def Source.Add (src : Source) (ts : List triple) : Source :=
  ⟨src.triples ++ ts⟩

/-- Modelled from the spec (§4.1): `Snapshot()` returns an immutable view
reflecting exactly the triples added up to this call. -/
def Source.Snapshot (src : Source) : Snapshot :=
  ⟨src.triples⟩

/-- Modelled from the spec (§4.1): `Snapshot.Count()`, the total number of
triples in the view. -/
def Snapshot.Count (s : Snapshot) : Nat :=
  s.triples.length

/-! ## N-Triples lexer

The lexer is not among the source files at hand (only its tests are), so
the bounded-token read is modelled from spec §4.3 and cross-checked below
against every case of `TestLexerReadIRI` from `codec.go`'s test part. -/

/-- The lexer's whitespace characters. -/
def isWhitespaceChar (c : Char) : Bool :=
  c = ' ' || c = '\t' || c = '\n' || c = '\r'

/-- Modelled from the spec (§4.3 rule 3) as corrected by the lexer tests
in the sources at hand (`TestLexerReadIRI`, `TestLexerReadStringLiteral`):
the look-ahead that makes an unescaped terminator real skips over any run
of whitespace and succeeds on end-of-input, `.`, `<`, `"` or `^`.  The
test cases `{"sub > ject>", "sub > ject"}` (terminator followed by
whitespace and then ordinary content keeps scanning) and
`{..li"t"^.., ..li"t..}` (`^` confirms the terminator) pin this down. -/
def isTermDelim : List Char → Bool
  | [] => true
  | c :: rest =>
    if isWhitespaceChar c then isTermDelim rest
    else c = '.' || c = '<' || c = '"' || c = '^'

/-- Modelled from the spec (§4.3, rules 1–4), with rule 3's look-ahead as
in `isTermDelim`: scan for the terminator `term`; a backslash consumes
itself and the next character as content; an unescaped terminator stops
the scan only when the look-ahead succeeds, and is itself content
otherwise; running out of input yields `none` (malformed input). -/
def readBounded (term : Char) : List Char → Option (List Char)
  | [] => none
  | '\\' :: c :: rest => (readBounded term rest).map (fun w => '\\' :: c :: w)
  | c :: rest =>
    if c = term then
      if isTermDelim rest then some []
      else (readBounded term rest).map (fun w => c :: w)
    else (readBounded term rest).map (fun w => c :: w)

/-- The claim's (and spec §4.3 rule 3's) literal one-character look-ahead:
the terminator would be real exactly when the single next character is
end-of-input, whitespace, `.`, `<` or `"`.  Kept for comparison with the
test-validated `readBounded`; the two disagree, see `C6_counterexample`. -/
def readBoundedOneChar (term : Char) : List Char → Option (List Char)
  | [] => none
  | '\\' :: c :: rest =>
    (readBoundedOneChar term rest).map (fun w => '\\' :: c :: w)
  | c :: rest =>
    if c = term then
      match rest with
      | [] => some []
      | d :: _ =>
        if isWhitespaceChar d || d = '.' || d = '<' || d = '"' then some []
        else (readBoundedOneChar term rest).map (fun w => c :: w)
    else (readBoundedOneChar term rest).map (fun w => c :: w)

/-- `lexer.readIRI` under the claim's literal one-character look-ahead. -/
def readIRIOneChar (s : List Char) : List Char :=
  (readBoundedOneChar '>' s).getD []

/-- Modelled from the spec (§4.3): `lexer.readIRI`, the bounded read of an
IRI body up to an unescaped `>`; a missing real terminator yields the
empty result. -/
def readIRI (s : List Char) : List Char :=
  (readBounded '>' s).getD []

/-- Modelled from the spec (§4.3): `lexer.readStringLiteral`, the bounded
read of a string-literal body up to an unescaped `"`. -/
def readStringLiteral (s : List Char) : List Char :=
  (readBounded '"' s).getD []

/-! ## Concrete sample data for the witnesses -/

/-- A list of triples covering a resource object, literals of every
canonical type tag plus a custom tag, and empty-string fields. -/
def sampleTriples : List triple :=
  [⟨str "sub", str "pred", ⟨false, str "res", ⟨[], []⟩⟩⟩,
   ⟨str "s2", str "p2", ⟨true, [], ⟨XsdString, str "v"⟩⟩⟩,
   ⟨str "s3", str "p3", ⟨true, [], ⟨XsdBoolean, str "true"⟩⟩⟩,
   ⟨str "s4", str "p4", ⟨true, [], ⟨XsdInteger, str "42"⟩⟩⟩,
   ⟨str "s5", str "p5", ⟨true, [], ⟨XsdDateTime, str "2017-01-01T16:43:28Z"⟩⟩⟩,
   ⟨str "s6", str "p6", ⟨true, [], ⟨str "custom", str "x"⟩⟩⟩,
   ⟨[], [], ⟨false, [], ⟨[], []⟩⟩⟩,
   ⟨[], [], ⟨true, [], ⟨[], []⟩⟩⟩]

/-- A triple whose subject has exactly `2^32` bytes: its length does not
fit the `uint32` length prefix, so `wordLength(len(sub))` wraps to `0`. -/
def bigTriple : triple :=
  ⟨List.replicate (2 ^ 32) 0, [], ⟨false, [], ⟨[], []⟩⟩⟩

/-! ## Lemmas about the binary wire format -/

theorem w32_length (n : Nat) : (w32 n).length = 4 := rfl

theorem w32_bytes (n : Nat) : byteValid (w32 n) := by
  intro b hb
  simp only [w32, List.mem_cons, List.not_mem_nil, or_false] at hb
  rcases hb with h | h | h | h <;> subst h <;> omega

theorem w32_beU32 (b0 b1 b2 b3 : Nat) (h0 : b0 < 256) (h1 : b1 < 256)
    (h2 : b2 < 256) (h3 : b3 < 256) :
    w32 (beU32 b0 b1 b2 b3) = [b0, b1, b2, b3] := by
  simp only [w32, beU32, List.cons.injEq, and_true]
  refine ⟨?_, ?_, ?_, ?_⟩ <;> omega

theorem beU32_lt (b0 b1 b2 b3 : Nat) (h0 : b0 < 256) (h1 : b1 < 256)
    (h2 : b2 < 256) (h3 : b3 < 256) : beU32 b0 b1 b2 b3 < 2 ^ 32 := by
  simp only [beU32]; omega

namespace binaryDecoder

/-- `readWord` on an explicit 4-byte length prefix. -/
theorem readWord_cons (b0 b1 b2 b3 : Nat) (rest : List Nat) :
    readWord (b0 :: b1 :: b2 :: b3 :: rest) =
      if rest.length < beU32 b0 b1 b2 b3 then .error .cannotDecodeWord
      else .ok (rest.take (beU32 b0 b1 b2 b3),
                rest.drop (beU32 b0 b1 b2 b3)) := rfl

/-- `readWord` consumes exactly a well-formed frame. -/
theorem readWord_frame (w rest : List Nat) (h : w.length < 2 ^ 32) :
    readWord (w32 w.length ++ w ++ rest) = .ok (w, rest) := by
  have hw : w32 w.length ++ w ++ rest =
      (w.length % 2 ^ 32 / 2 ^ 24) :: (w.length % 2 ^ 32 / 2 ^ 16 % 256) ::
      (w.length % 2 ^ 32 / 2 ^ 8 % 256) :: (w.length % 2 ^ 32 % 256) ::
      (w ++ rest) := by
    simp [w32, List.append_assoc]
  rw [hw, readWord_cons]
  have hlen : beU32 (w.length % 2 ^ 32 / 2 ^ 24)
      (w.length % 2 ^ 32 / 2 ^ 16 % 256) (w.length % 2 ^ 32 / 2 ^ 8 % 256)
      (w.length % 2 ^ 32 % 256) = w.length := by
    simp only [beU32]
    omega
  rw [hlen]
  have : ¬ (w ++ rest).length < w.length := by
    simp [List.length_append]
  rw [if_neg this]
  rw [List.take_left, List.drop_left]

/-- `readWord` on a stream shorter than its 4-byte length prefix. -/
theorem readWord_short (s : List Nat) (h : s.length < 4) :
    readWord s = .error (if s.length = 0 then .eof else .unexpectedEOF) := by
  match s with
  | [] => rfl
  | [_] => rfl
  | [_, _] => rfl
  | [_, _, _] => rfl
  | _ :: _ :: _ :: _ :: _ => simp only [List.length_cons] at h; omega

/-- Complete case analysis for `readWord` on an `n`-byte prefix of a
well-formed frame. -/
theorem readWord_take (w rest : List Nat) (n : Nat) (h : w.length < 2 ^ 32) :
    readWord ((w32 w.length ++ w ++ rest).take n) =
      if n = 0 then .error .eof
      else if n < 4 then .error .unexpectedEOF
      else if n < 4 + w.length then .error .cannotDecodeWord
      else .ok (w, rest.take (n - (4 + w.length))) := by
  rcases Nat.lt_or_ge n 4 with h4 | h4
  · have hlen : ((w32 w.length ++ w ++ rest).take n).length = n := by
      rw [List.length_take]
      simp only [List.length_append, w32_length]
      omega
    rw [readWord_short _ (by omega)]
    rw [hlen]
    split_ifs <;> first | rfl | omega
  · have hsplit : (w32 w.length ++ w ++ rest).take n =
        w32 w.length ++ ((w ++ rest).take (n - 4)) := by
      rw [List.append_assoc, List.take_append_eq_append_take]
      congr 1
      exact List.take_of_length_le (by rw [w32_length]; omega)
    rw [hsplit]
    rcases Nat.lt_or_ge n (4 + w.length) with hw | hw
    · have hsplit2 : (w ++ rest).take (n - 4) = w.take (n - 4) := by
        rw [List.take_append_eq_append_take]
        have : n - 4 - w.length = 0 := by omega
        rw [this, List.take_zero, List.append_nil]
      rw [hsplit2]
      have hfr : w32 w.length ++ w.take (n - 4) =
          (w.length % 2 ^ 32 / 2 ^ 24) :: (w.length % 2 ^ 32 / 2 ^ 16 % 256) ::
          (w.length % 2 ^ 32 / 2 ^ 8 % 256) :: (w.length % 2 ^ 32 % 256) ::
          w.take (n - 4) := by simp [w32]
      rw [hfr, readWord_cons]
      have hlen : beU32 (w.length % 2 ^ 32 / 2 ^ 24)
          (w.length % 2 ^ 32 / 2 ^ 16 % 256) (w.length % 2 ^ 32 / 2 ^ 8 % 256)
          (w.length % 2 ^ 32 % 256) = w.length := by
        simp only [beU32]; omega
      rw [hlen]
      have htk : (w.take (n - 4)).length < w.length := by
        rw [List.length_take]
        omega
      rw [if_pos htk]
      split_ifs <;> first | rfl | omega
    · have hsplit2 : (w ++ rest).take (n - 4) =
          w ++ rest.take (n - 4 - w.length) := by
        rw [List.take_append_eq_append_take]
        congr 1
        exact List.take_of_length_le (by omega)
      rw [hsplit2, ← List.append_assoc,
        readWord_frame w (rest.take (n - 4 - w.length)) h]
      have harith : n - 4 - w.length = n - (4 + w.length) := by omega
      rw [harith]
      split_ifs <;> first | rfl | omega

/-- `readWord_frame`, stated with right-nested appends. -/
theorem readWord_frameR (w tail : List Nat) (h : w.length < 2 ^ 32) :
    readWord (w32 w.length ++ (w ++ tail)) = .ok (w, tail) := by
  rw [← List.append_assoc]; exact readWord_frame w tail h

/-- `readWord` reports a clean `EOF` exactly on the empty stream. -/
theorem readWord_eof_iff (s : List Nat) :
    readWord s = .error .eof ↔ s = [] := by
  match s with
  | [] => simp [readWord]
  | [_] => simp [readWord]
  | [_, _] => simp [readWord]
  | [_, _, _] => simp [readWord]
  | b0 :: b1 :: b2 :: b3 :: rest =>
    rw [readWord_cons]
    split_ifs <;> simp

/-- A successful `readWord` consumes at least its 4 length-prefix bytes. -/
theorem readWord_ok_length {s w r : List Nat} (h : readWord s = .ok (w, r)) :
    4 + r.length ≤ s.length := by
  match s with
  | [] => simp [readWord] at h
  | [_] => simp [readWord] at h
  | [_, _] => simp [readWord] at h
  | [_, _, _] => simp [readWord] at h
  | b0 :: b1 :: b2 :: b3 :: rest =>
    rw [readWord_cons] at h
    split_ifs at h with hlt
    obtain ⟨-, rfl⟩ : w = rest.take (beU32 b0 b1 b2 b3) ∧
        r = rest.drop (beU32 b0 b1 b2 b3) := by
      have hp := Prod.mk.inj (Except.ok.inj h)
      exact ⟨hp.1.symm, hp.2.symm⟩
    simp only [List.length_cons, List.length_drop]
    omega

/-- Inversion of a successful `readWord` on a byte stream: the input was a
well-formed frame for the word that came back. -/
theorem readWord_ok_inv {s w r : List Nat} (hv : byteValid s)
    (h : readWord s = .ok (w, r)) :
    s = w32 w.length ++ (w ++ r) ∧ w.length < 2 ^ 32 ∧
    byteValid w ∧ byteValid r := by
  match s with
  | [] => simp [readWord] at h
  | [_] => simp [readWord] at h
  | [_, _] => simp [readWord] at h
  | [_, _, _] => simp [readWord] at h
  | b0 :: b1 :: b2 :: b3 :: rest =>
    rw [readWord_cons] at h
    split_ifs at h with hlt
    obtain ⟨hw, hr⟩ : w = rest.take (beU32 b0 b1 b2 b3) ∧
        r = rest.drop (beU32 b0 b1 b2 b3) := by
      have hp := Prod.mk.inj (Except.ok.inj h)
      exact ⟨hp.1.symm, hp.2.symm⟩
    have hb0 : b0 < 256 := hv b0 (by simp)
    have hb1 : b1 < 256 := hv b1 (by simp)
    have hb2 : b2 < 256 := hv b2 (by simp)
    have hb3 : b3 < 256 := hv b3 (by simp)
    have hwlen : w.length = beU32 b0 b1 b2 b3 := by
      rw [hw, List.length_take]; omega
    refine ⟨?_, ?_, ?_, ?_⟩
    · rw [hwlen, w32_beU32 _ _ _ _ hb0 hb1 hb2 hb3, hw, hr,
        List.take_append_drop]
      rfl
    · rw [hwlen]; exact beU32_lt _ _ _ _ hb0 hb1 hb2 hb3
    · intro b hb
      exact hv b (by
        rw [hw] at hb
        have := List.take_subset (beU32 b0 b1 b2 b3) rest hb
        simp [this])
    · intro b hb
      exact hv b (by
        rw [hr] at hb
        have := List.drop_subset (beU32 b0 b1 b2 b3) rest hb
        simp [this])

/-- Consuming a complete resource frame. -/
theorem decodeTriple_resFrame (sub pred rid rest : List Nat)
    (hs : sub.length < 2 ^ 32) (hp : pred.length < 2 ^ 32)
    (hr : rid.length < 2 ^ 32) :
    decodeTriple (resFrame sub pred rid ++ rest) =
      .ok ⟨sub, pred, ⟨false, rid, ⟨[], []⟩⟩⟩ rest := by
  have e1 : resFrame sub pred rid ++ rest =
      w32 sub.length ++ (sub ++ (w32 pred.length ++ (pred ++
        (0 :: (w32 rid.length ++ (rid ++ rest)))))) := by
    simp [resFrame]
  have h1 := readWord_frameR sub
    (w32 pred.length ++ (pred ++ (0 :: (w32 rid.length ++ (rid ++ rest))))) hs
  have h2 := readWord_frameR pred
    (0 :: (w32 rid.length ++ (rid ++ rest))) hp
  have h3 := readWord_frameR rid rest hr
  rw [e1]
  simp [decodeTriple, h1, h2, h3]

/-- Consuming a complete literal frame — for any nonzero kind byte. -/
theorem decodeTriple_litFrame (k : Nat) (sub pred typ val rest : List Nat)
    (hk : k ≠ 0) (hs : sub.length < 2 ^ 32) (hp : pred.length < 2 ^ 32)
    (ht : typ.length < 2 ^ 32) (hv : val.length < 2 ^ 32) :
    decodeTriple (litFrame k sub pred typ val ++ rest) =
      .ok ⟨sub, pred, ⟨true, [], ⟨typ, val⟩⟩⟩ rest := by
  have e1 : litFrame k sub pred typ val ++ rest =
      w32 sub.length ++ (sub ++ (w32 pred.length ++ (pred ++
        (k :: (w32 typ.length ++ (typ ++ (w32 val.length ++
          (val ++ rest)))))))) := by
    simp [litFrame]
  have h1 := readWord_frameR sub
    (w32 pred.length ++ (pred ++ (k :: (w32 typ.length ++
      (typ ++ (w32 val.length ++ (val ++ rest))))))) hs
  have h2 := readWord_frameR pred
    (k :: (w32 typ.length ++ (typ ++ (w32 val.length ++ (val ++ rest))))) hp
  have h3 := readWord_frameR typ (w32 val.length ++ (val ++ rest)) ht
  have h4 := readWord_frameR val rest hv
  rw [e1]
  simp [decodeTriple, h1, h2, h3, h4, hk]

/-- `decodeTriple` reports a clean stop exactly on the empty stream. -/
theorem decodeTriple_done_iff (s : List Nat) :
    decodeTriple s = .done ↔ s = [] := by
  constructor
  · intro h
    unfold decodeTriple at h
    split at h
    next heq => exact (readWord_eof_iff s).mp heq
    next => simp at h
    next sub s1 heq1 =>
      split at h
      next => simp at h
      next pred s2 heq2 =>
        split at h
        next => simp at h
        next k s3 =>
          split at h
          · split at h <;> simp at h
          · split at h
            next => simp at h
            next => split at h <;> simp at h
  · rintro rfl; rfl

/-- A successful `decodeTriple` strictly shrinks the stream. -/
theorem decodeTriple_ok_length {s : List Nat} {t : triple} {rest : List Nat}
    (h : decodeTriple s = .ok t rest) : rest.length < s.length := by
  unfold decodeTriple at h
  split at h
  next => simp at h
  next => simp at h
  next sub s1 heq1 =>
    have l1 := readWord_ok_length heq1
    split at h
    next => simp at h
    next pred s2 heq2 =>
      have l2 := readWord_ok_length heq2
      split at h
      next => simp at h
      next k s3 =>
        split at h
        · split at h
          next => simp at h
          next rid s4 heq3 =>
            have l3 := readWord_ok_length heq3
            obtain ⟨-, rfl⟩ : _ = t ∧ s4 = rest :=
              by simpa using h
            simp only [List.length_cons] at l2
            omega
        · split at h
          next => simp at h
          next typ s4 heq3 =>
            have l3 := readWord_ok_length heq3
            split at h
            next => simp at h
            next val s5 heq4 =>
              have l4 := readWord_ok_length heq4
              obtain ⟨-, rfl⟩ : _ = t ∧ s5 = rest :=
                by simpa using h
              simp only [List.length_cons] at l2
              omega

/-- Inversion of a successful `decodeTriple` on a byte stream: the consumed
bytes form a complete resource or literal frame for the decoded triple,
whose fields are bytes with in-range lengths. -/
theorem decodeTriple_ok_inv {s : List Nat} {t : triple} {rest : List Nat}
    (hv : byteValid s) (h : decodeTriple s = .ok t rest) :
    byteValid rest ∧ fieldsSmall t ∧
      ((t.obj.isLit = false ∧
        s = resFrame t.sub t.pred t.obj.resourceID ++ rest) ∨
       (∃ k, k ≠ 0 ∧ t.obj.isLit = true ∧
        s = litFrame k t.sub t.pred t.obj.lit.typ t.obj.lit.val ++ rest)) := by
  unfold decodeTriple at h
  split at h
  next => simp at h
  next => simp at h
  next sub s1 heq1 =>
    obtain ⟨hshape1, hsm1, hb1, hv1⟩ := readWord_ok_inv hv heq1
    split at h
    next => simp at h
    next pred s2 heq2 =>
      obtain ⟨hshape2, hsm2, hb2, hv2⟩ := readWord_ok_inv hv1 heq2
      split at h
      next => simp at h
      next k s3 =>
        have hv3 : byteValid s3 := fun b hb => hv2 b (by simp [hb])
        split at h
        next hk =>
          split at h
          next => simp at h
          next rid s4 heq3 =>
            obtain ⟨hshape3, hsm3, hb3, hv4⟩ := readWord_ok_inv hv3 heq3
            obtain ⟨rfl, rfl⟩ : t = ⟨sub, pred, ⟨false, rid, ⟨[], []⟩⟩⟩ ∧
                rest = s4 := by simpa using h.symm
            refine ⟨hv4, ?_, Or.inl ⟨rfl, ?_⟩⟩
            · exact ⟨hsm1, hsm2, hsm3, by simp, by simp⟩
            · rw [hshape1, hshape2, hk, hshape3]
              simp [resFrame]
        next hk =>
          split at h
          next => simp at h
          next typ s4 heq3 =>
            obtain ⟨hshape3, hsm3, hb3, hv4⟩ := readWord_ok_inv hv3 heq3
            split at h
            next => simp at h
            next val s5 heq4 =>
              obtain ⟨hshape4, hsm4, hb4, hv5⟩ := readWord_ok_inv hv4 heq4
              obtain ⟨rfl, rfl⟩ : t = ⟨sub, pred, ⟨true, [], ⟨typ, val⟩⟩⟩ ∧
                  rest = s5 := by simpa using h.symm
              refine ⟨hv5, ?_, Or.inr ⟨k, hk, rfl, ?_⟩⟩
              · exact ⟨hsm1, hsm2, by simp, hsm3, hsm4⟩
              · rw [hshape1, hshape2, hshape3, hshape4]
                simp [litFrame]

/-- The accumulator just rides along: the loop's output is the accumulator
followed by what the loop produces from the empty accumulator, except that
an error discards everything. -/
theorem decodeLoop_acc (fuel : Nat) : ∀ (s : List Nat) (acc : List triple),
    decodeLoop fuel s acc =
      match decodeLoop fuel s [] with
      | (l, none) => (acc ++ l, none)
      | (_, some e) => ([], some e) := by
  induction fuel with
  | zero => intro s acc; simp [decodeLoop]
  | succ f ih =>
    intro s acc
    rcases hd : decodeTriple s with _ | ⟨t, rest⟩ | e
    · simp [decodeLoop, hd]
    · have lhs : decodeLoop (f + 1) s acc = decodeLoop f rest (acc ++ [t]) := by
        simp [decodeLoop, hd]
      have rhs0 : decodeLoop (f + 1) s [] = decodeLoop f rest [t] := by
        simp [decodeLoop, hd]
      rw [lhs, rhs0, ih rest (acc ++ [t]), ih rest [t]]
      rcases decodeLoop f rest [] with ⟨l, e⟩
      cases e <;> simp
    · simp [decodeLoop, hd]

/-- An erroring run of the loop hands back no triples at all. -/
theorem decodeLoop_err_nil {fuel : Nat} {s : List Nat} {acc l : List triple}
    {e : DecErr} (h : decodeLoop fuel s acc = (l, some e)) : l = [] := by
  rw [decodeLoop_acc] at h
  rcases hd : decodeLoop fuel s [] with ⟨l0, e0⟩
  rw [hd] at h
  cases e0 <;> simp_all

/-- The fuel does not matter once it exceeds the stream length. -/
theorem decodeLoop_fuel : ∀ (f1 f2 : Nat) (s : List Nat) (acc : List triple),
    s.length < f1 → s.length < f2 →
    decodeLoop f1 s acc = decodeLoop f2 s acc := by
  intro f1
  induction f1 with
  | zero => intro f2 s acc h1; omega
  | succ f ih =>
    intro f2 s acc h1 h2
    match f2, h2 with
    | f2 + 1, h2 =>
      rcases hd : decodeTriple s with _ | ⟨t, rest⟩ | e
      · simp [decodeLoop, hd]
      · have hlen := decodeTriple_ok_length hd
        have lhs : decodeLoop (f + 1) s acc = decodeLoop f rest (acc ++ [t]) := by
          simp [decodeLoop, hd]
        have rhs : decodeLoop (f2 + 1) s acc = decodeLoop f2 rest (acc ++ [t]) := by
          simp [decodeLoop, hd]
        rw [lhs, rhs]
        exact ih f2 rest (acc ++ [t]) (by omega) (by omega)
      · simp [decodeLoop, hd]

/-- One decoded triple peels off the front of a `Decode` run. -/
theorem Decode_cons {s : List Nat} {t : triple} {rest : List Nat}
    (h : decodeTriple s = .ok t rest) :
    Decode s =
      match Decode rest with
      | (l, none) => (t :: l, none)
      | (_, some e) => ([], some e) := by
  have hlen := decodeTriple_ok_length h
  have h1 : Decode s = decodeLoop s.length rest [t] := by
    simp [Decode, decodeLoop, h]
  rw [h1, decodeLoop_fuel s.length (rest.length + 1) rest [t] (by omega)
    (by omega), decodeLoop_acc]
  show (match decodeLoop (rest.length + 1) rest [] with
        | (l, none) => ([t] ++ l, none)
        | (_, some e) => ([], some e)) = _
  rcases hd : decodeLoop (rest.length + 1) rest [] with ⟨l, e⟩
  simp only [Decode, hd]
  cases e <;> simp

/-- An erroring first triple makes the whole `Decode` run fail with that
error and no triples. -/
theorem Decode_err {s : List Nat} {e : DecErr}
    (h : decodeTriple s = .err e) : Decode s = ([], some e) := by
  simp [Decode, decodeLoop, h]

theorem Decode_nil : Decode ([] : List Nat) = ([], none) := rfl

end binaryDecoder

/-- On a resource triple the encoder emits exactly a resource frame. -/
theorem encodeTriple_eq_res (t : triple) (h : t.obj.isLit = false) :
    encodeTriple t = resFrame t.sub t.pred t.obj.resourceID := by
  simp [encodeTriple, resFrame, h]

/-- On a literal triple the encoder emits a literal frame with kind `1`. -/
theorem encodeTriple_eq_lit (t : triple) (h : t.obj.isLit = true) :
    encodeTriple t = litFrame 1 t.sub t.pred t.obj.lit.typ t.obj.lit.val := by
  simp [encodeTriple, litFrame, h]

/-- Decoding one encoded triple gives back its canonical form and leaves
the rest of the stream untouched. -/
theorem decodeTriple_encode (t : triple) (rest : List Nat)
    (h : fieldsSmall t) :
    binaryDecoder.decodeTriple (encodeTriple t ++ rest) =
      .ok (canon t) rest := by
  obtain ⟨h1, h2, h3, h4, h5⟩ := h
  cases hl : t.obj.isLit
  · rw [encodeTriple_eq_res t hl,
      binaryDecoder.decodeTriple_resFrame _ _ _ _ h1 h2 h3]
    simp [canon, hl]
  · rw [encodeTriple_eq_lit t hl,
      binaryDecoder.decodeTriple_litFrame 1 _ _ _ _ _ one_ne_zero h1 h2 h4 h5]
    simp [canon, hl]

/-- Decoding an encoded triple list followed by anything: the canonical
triples come off the front, then whatever the tail decodes to. -/
theorem Decode_encode_append (ts : List triple) (rest : List Nat)
    (h : ∀ t ∈ ts, fieldsSmall t) :
    binaryDecoder.Decode (binaryEncoder.Encode ts ++ rest) =
      match binaryDecoder.Decode rest with
      | (l, none) => (ts.map canon ++ l, none)
      | (_, some e) => ([], some e) := by
  induction ts with
  | nil =>
    simp only [binaryEncoder.Encode, List.map_nil, List.flatten_nil,
      List.nil_append, List.map_nil]
    rcases hd : binaryDecoder.Decode rest with ⟨l, e⟩
    cases e
    · simp
    · have hnil : l = [] := binaryDecoder.decodeLoop_err_nil hd
      simp [hnil]
  | cons t ts ih =>
    have hsm : fieldsSmall t := h t (List.mem_cons_self _ _)
    have e1 : binaryEncoder.Encode (t :: ts) ++ rest =
        encodeTriple t ++ (binaryEncoder.Encode ts ++ rest) := by
      simp [binaryEncoder.Encode]
    rw [e1, binaryDecoder.Decode_cons (decodeTriple_encode t _ hsm),
      ih (fun u hu => h u (List.mem_cons_of_mem _ hu))]
    rcases hd : binaryDecoder.Decode rest with ⟨l, e⟩
    cases e <;> simp

/-- Decoding an encoded triple list gives exactly the canonical triples. -/
theorem Decode_encode (ts : List triple) (h : ∀ t ∈ ts, fieldsSmall t) :
    binaryDecoder.Decode (binaryEncoder.Encode ts) = (ts.map canon, none) := by
  have hap := Decode_encode_append ts [] h
  rw [List.append_nil] at hap
  rw [hap, binaryDecoder.Decode_nil]
  simp

/-- `Equal` does not look at the inactive variant of an object, so a triple
equals its canonical form. -/
theorem Equal_canon (t : triple) : t.Equal (canon t) = true := by
  cases hl : t.obj.isLit <;>
    simp [canon, triple.Equal, object.Equal, hl]

/-- The canonicalised list is multiset-equal to the original. -/
theorem multisetEqual_canon (ts : List triple) :
    multisetEqual (ts.map canon) ts = true := by
  induction ts with
  | nil => rfl
  | cons t ts ih =>
    show multisetEqual (canon t :: ts.map canon) (t :: ts) = true
    simp [multisetEqual, removeFirst, Equal_canon t, ih]

/-- If `removeFirst` succeeds, something in the list was `Equal` to `t`. -/
theorem removeFirst_some {t : triple} : ∀ {l l2 : List triple},
    removeFirst t l = some l2 → ∃ u ∈ l, t.Equal u = true := by
  intro l
  induction l with
  | nil => intro l2 h; simp [removeFirst] at h
  | cons u rest ih =>
    intro l2 h
    by_cases he : t.Equal u
    · exact ⟨u, by simp, he⟩
    · rw [removeFirst, if_neg he, Option.map_eq_some'] at h
      obtain ⟨l2x, hl2, -⟩ := h
      obtain ⟨ux, hmem, heq⟩ := ih hl2
      exact ⟨ux, by simp [hmem], heq⟩

/-- Every triple a successful decode run appends was read off the stream,
so its subject length is bounded by the 32-bit length prefix. -/
theorem decodeLoop_subs_small : ∀ (fuel : Nat) (s : List Nat)
    (acc l : List triple), byteValid s →
    binaryDecoder.decodeLoop fuel s acc = (l, none) →
    ∀ u ∈ l, u ∈ acc ∨ u.sub.length < 2 ^ 32 := by
  intro fuel
  induction fuel with
  | zero =>
    intro s acc l hv h u hu
    simp only [binaryDecoder.decodeLoop, Prod.mk.injEq] at h
    exact Or.inl (h.1 ▸ hu)
  | succ f ih =>
    intro s acc l hv h u hu
    rcases hd : binaryDecoder.decodeTriple s with _ | ⟨t, rest⟩ | e <;>
      simp only [binaryDecoder.decodeLoop, hd] at h
    · obtain ⟨rfl, -⟩ : acc = l ∧ True := by
        refine ⟨(Prod.mk.inj h).1, trivial⟩
      exact Or.inl hu
    · obtain ⟨hvrest, hsm, -⟩ := binaryDecoder.decodeTriple_ok_inv hv hd
      rcases ih rest (acc ++ [t]) l hvrest h u hu with hin | hlt
      · rcases List.mem_append.mp hin with h1 | h1
        · exact Or.inl h1
        · right
          have hut : u = t := by simpa using h1
          rw [hut]
          exact hsm.1
      · exact Or.inr hlt
    · simp at h

/-- The `Decode`-level form of `decodeLoop_subs_small`. -/
theorem Decode_subs_small {s : List Nat} {l : List triple} (hv : byteValid s)
    (h : binaryDecoder.Decode s = (l, none)) :
    ∀ u ∈ l, u.sub.length < 2 ^ 32 := by
  intro u hu
  rcases decodeLoop_subs_small (s.length + 1) s [] l hv h u hu with hin | hlt
  · simp at hin
  · exact hlt

/-- The encoder only emits bytes whenever the triple's fields are bytes. -/
theorem encodeTriple_bytes (t : triple) (hs : byteValid t.sub)
    (hp : byteValid t.pred) (hr : byteValid t.obj.resourceID)
    (ht : byteValid t.obj.lit.typ) (hv : byteValid t.obj.lit.val) :
    byteValid (encodeTriple t) := by
  intro b hb
  simp only [encodeTriple, List.mem_append] at hb
  rcases hb with (((hb | hb) | hb) | hb) | hb
  · exact w32_bytes _ b hb
  · exact hs b hb
  · exact w32_bytes _ b hb
  · exact hp b hb
  · split at hb
    · rcases List.mem_cons.mp hb with rfl | hb
      · omega
      · simp only [List.mem_append] at hb
        rcases hb with ((hb | hb) | hb) | hb
        · exact w32_bytes _ b hb
        · exact ht b hb
        · exact w32_bytes _ b hb
        · exact hv b hb
    · rcases List.mem_cons.mp hb with rfl | hb
      · omega
      · simp only [List.mem_append] at hb
        rcases hb with hb | hb
        · exact w32_bytes _ b hb
        · exact hr b hb

/-- A stream of complete frames decodes without error (the loop's clean
stop happens exactly at a frame boundary). -/
theorem frames_Decode_none : ∀ (s : List Nat), Frames s →
    (binaryDecoder.Decode s).2 = none := by
  intro s h
  induction h with
  | nil => rfl
  | res sub pred rid rest hs hp hr hf ih =>
    rw [binaryDecoder.Decode_cons
      (binaryDecoder.decodeTriple_resFrame sub pred rid rest hs hp hr)]
    rcases hx : binaryDecoder.Decode rest with ⟨l, e⟩
    rw [hx] at ih
    cases e
    · simp
    · simp at ih
  | lit k sub pred typ val rest hk hs hp ht hv hf ih =>
    rw [binaryDecoder.Decode_cons
      (binaryDecoder.decodeTriple_litFrame k sub pred typ val rest hk hs hp ht hv)]
    rcases hx : binaryDecoder.Decode rest with ⟨l, e⟩
    rw [hx] at ih
    cases e
    · simp
    · simp at ih

/-- A byte stream that decodes without error is a sequence of complete
frames: the decoder's clean stop only happens at a triple boundary. -/
theorem Decode_none_frames : ∀ (n : Nat) (s : List Nat), s.length ≤ n →
    byteValid s → (binaryDecoder.Decode s).2 = none → Frames s := by
  intro n
  induction n with
  | zero =>
    intro s hlen _ _
    have hnil : s = [] := List.eq_nil_of_length_eq_zero (by omega)
    rw [hnil]
    exact Frames.nil
  | succ n ih =>
    intro s hlen hv h
    rcases hd : binaryDecoder.decodeTriple s with _ | ⟨t, rest⟩ | e
    · rw [(binaryDecoder.decodeTriple_done_iff s).mp hd]
      exact Frames.nil
    · have hlt := binaryDecoder.decodeTriple_ok_length hd
      obtain ⟨hvrest, hsm, hshape⟩ := binaryDecoder.decodeTriple_ok_inv hv hd
      have hsnd : (binaryDecoder.Decode rest).2 = none := by
        rw [binaryDecoder.Decode_cons hd] at h
        rcases hr : binaryDecoder.Decode rest with ⟨l, e⟩
        rw [hr] at h
        cases e
        · rfl
        · simp at h
      have hframes := ih rest (by omega) hvrest hsnd
      rcases hshape with ⟨-, hs⟩ | ⟨k, hk, -, hs⟩
      · rw [hs]
        exact Frames.res _ _ _ _ hsm.1 hsm.2.1 hsm.2.2.1 hframes
      · rw [hs]
        exact Frames.lit k _ _ _ _ _ hk hsm.1 hsm.2.1 hsm.2.2.2.1
          hsm.2.2.2.2 hframes
    · rw [binaryDecoder.Decode_err hd] at h
      simp at h

/-- Byte length of a resource frame. -/
theorem resFrame_length (sub pred rid : List Nat) :
    (resFrame sub pred rid).length =
      13 + sub.length + pred.length + rid.length := by
  simp [resFrame, w32]
  omega

/-- Byte length of a literal frame. -/
theorem litFrame_length (k : Nat) (sub pred typ val : List Nat) :
    (litFrame k sub pred typ val).length =
      17 + sub.length + pred.length + typ.length + val.length := by
  simp [litFrame, w32]
  omega

namespace binaryDecoder

/-- A word read on a frame truncated inside that word's region errs with
the cause determined by the offset into the region. -/
theorem readWord_take_err (w rest : List Nat) (j : Nat)
    (hw : w.length < 2 ^ 32) (hj : j < 4 + w.length) :
    readWord ((w32 w.length ++ w ++ rest).take j) =
      .error (causeOfOff j) := by
  rw [readWord_take w rest j hw]
  unfold causeOfOff
  split_ifs <;> first | rfl | omega

/-- `decodeTriple` on a frame truncated before the kind byte: the error
names the subject, predicate or object-type field, by region. -/
theorem decodeTriple_take_front (A B TAIL : List Nat) (k n : Nat)
    (hA : A.length < 2 ^ 32) (hB : B.length < 2 ^ 32)
    (h0 : 0 < n) (hn : n < 9 + A.length + B.length) :
    decodeTriple
        ((w32 A.length ++ A ++ (w32 B.length ++ B ++ (k :: TAIL))).take n) =
      .err (if n < 4 + A.length then ⟨.subject, causeOfOff n⟩
        else if n < 8 + A.length + B.length then
          ⟨.predicate, causeOfOff (n - (4 + A.length))⟩
        else ⟨.objectType, .eof⟩) := by
  by_cases hr1 : n < 4 + A.length
  · by_cases h4 : n < 4
    · have r1 : readWord ((w32 A.length ++ A ++
          (w32 B.length ++ B ++ (k :: TAIL))).take n) =
          .error .unexpectedEOF := by
        rw [readWord_take A _ n hA, if_neg (by omega), if_pos h4]
      simp only [decodeTriple, r1]
      rw [if_pos hr1]
      unfold causeOfOff
      split_ifs <;> first | rfl | omega
    · have r1 : readWord ((w32 A.length ++ A ++
          (w32 B.length ++ B ++ (k :: TAIL))).take n) =
          .error .cannotDecodeWord := by
        rw [readWord_take A _ n hA, if_neg (by omega), if_neg (by omega),
          if_pos (by omega)]
      simp only [decodeTriple, r1]
      rw [if_pos hr1]
      unfold causeOfOff
      split_ifs <;> first | rfl | omega
  · have r1 : readWord ((w32 A.length ++ A ++
        (w32 B.length ++ B ++ (k :: TAIL))).take n) =
        .ok (A, (w32 B.length ++ B ++ (k :: TAIL)).take (n - (4 + A.length))) := by
      rw [readWord_take A _ n hA, if_neg (by omega), if_neg (by omega),
        if_neg (by omega)]
    by_cases hr2 : n < 8 + A.length + B.length
    · have r2 : readWord ((w32 B.length ++ B ++ (k :: TAIL)).take
          (n - (4 + A.length))) =
          .error (causeOfOff (n - (4 + A.length))) :=
        readWord_take_err B _ _ hB (by omega)
      simp only [decodeTriple, r1, r2]
      rw [if_neg hr1, if_pos hr2]
    · have r2 : readWord ((w32 B.length ++ B ++ (k :: TAIL)).take
          (n - (4 + A.length))) =
          .ok (B, (k :: TAIL).take (n - (4 + A.length) - (4 + B.length))) := by
        rw [readWord_take B _ _ hB, if_neg (by omega), if_neg (by omega),
          if_neg (by omega)]
      have e2 : (k :: TAIL).take (n - (4 + A.length) - (4 + B.length)) =
          ([] : List Nat) := by
        rw [show n - (4 + A.length) - (4 + B.length) = 0 from by omega,
          List.take_zero]
      simp only [decodeTriple, r1, r2, e2]
      rw [if_neg hr1, if_neg hr2]

/-- `decodeTriple` on a resource frame truncated inside the resource word:
both leading words arrive, the kind byte `0` arrives, the resource read
fails as supplied. -/
theorem decodeTriple_take_res (A B TAIL : List Nat) (n : Nat) (e : WordErr)
    (hA : A.length < 2 ^ 32) (hB : B.length < 2 ^ 32)
    (hn : 9 + A.length + B.length ≤ n)
    (he : readWord (TAIL.take (n - (9 + A.length + B.length))) = .error e) :
    decodeTriple
        ((w32 A.length ++ A ++ (w32 B.length ++ B ++ (0 :: TAIL))).take n) =
      .err ⟨.resource, e⟩ := by
  have r1 : readWord ((w32 A.length ++ A ++
      (w32 B.length ++ B ++ ((0 : Nat) :: TAIL))).take n) =
      .ok (A, (w32 B.length ++ B ++ ((0 : Nat) :: TAIL)).take (n - (4 + A.length))) := by
    rw [readWord_take A _ n hA, if_neg (by omega), if_neg (by omega),
      if_neg (by omega)]
  have r2 : readWord ((w32 B.length ++ B ++ ((0 : Nat) :: TAIL)).take
      (n - (4 + A.length))) =
      .ok (B, ((0 : Nat) :: TAIL).take (n - (4 + A.length) - (4 + B.length))) := by
    rw [readWord_take B _ _ hB, if_neg (by omega), if_neg (by omega),
      if_neg (by omega)]
  have e2 : ((0 : Nat) :: TAIL).take (n - (4 + A.length) - (4 + B.length)) =
      0 :: TAIL.take (n - (9 + A.length + B.length)) := by
    rw [show n - (4 + A.length) - (4 + B.length) =
      (n - (9 + A.length + B.length)) + 1 from by omega, List.take_succ_cons]
  simp only [decodeTriple, r1, r2, e2, he, reduceIte]

/-- `decodeTriple` on a literal frame truncated inside the type word. -/
theorem decodeTriple_take_litType (A B TAIL : List Nat) (k n : Nat)
    (e : WordErr) (hk : k ≠ 0)
    (hA : A.length < 2 ^ 32) (hB : B.length < 2 ^ 32)
    (hn : 9 + A.length + B.length ≤ n)
    (he : readWord (TAIL.take (n - (9 + A.length + B.length))) = .error e) :
    decodeTriple
        ((w32 A.length ++ A ++ (w32 B.length ++ B ++ (k :: TAIL))).take n) =
      .err ⟨.literalType, e⟩ := by
  have r1 : readWord ((w32 A.length ++ A ++
      (w32 B.length ++ B ++ (k :: TAIL))).take n) =
      .ok (A, (w32 B.length ++ B ++ (k :: TAIL)).take (n - (4 + A.length))) := by
    rw [readWord_take A _ n hA, if_neg (by omega), if_neg (by omega),
      if_neg (by omega)]
  have r2 : readWord ((w32 B.length ++ B ++ (k :: TAIL)).take
      (n - (4 + A.length))) =
      .ok (B, (k :: TAIL).take (n - (4 + A.length) - (4 + B.length))) := by
    rw [readWord_take B _ _ hB, if_neg (by omega), if_neg (by omega),
      if_neg (by omega)]
  have e2 : (k :: TAIL).take (n - (4 + A.length) - (4 + B.length)) =
      k :: TAIL.take (n - (9 + A.length + B.length)) := by
    rw [show n - (4 + A.length) - (4 + B.length) =
      (n - (9 + A.length + B.length)) + 1 from by omega, List.take_succ_cons]
  simp only [decodeTriple, r1, r2, e2, he, if_neg hk]

/-- `decodeTriple` on a literal frame truncated inside the value word: the
type word arrives in full, the value read fails as supplied. -/
theorem decodeTriple_take_litVal (A B TAIL : List Nat) (k n : Nat)
    (typ s4 : List Nat) (e : WordErr) (hk : k ≠ 0)
    (hA : A.length < 2 ^ 32) (hB : B.length < 2 ^ 32)
    (hn : 9 + A.length + B.length ≤ n)
    (hT : readWord (TAIL.take (n - (9 + A.length + B.length))) = .ok (typ, s4))
    (he : readWord s4 = .error e) :
    decodeTriple
        ((w32 A.length ++ A ++ (w32 B.length ++ B ++ (k :: TAIL))).take n) =
      .err ⟨.literalValue, e⟩ := by
  have r1 : readWord ((w32 A.length ++ A ++
      (w32 B.length ++ B ++ (k :: TAIL))).take n) =
      .ok (A, (w32 B.length ++ B ++ (k :: TAIL)).take (n - (4 + A.length))) := by
    rw [readWord_take A _ n hA, if_neg (by omega), if_neg (by omega),
      if_neg (by omega)]
  have r2 : readWord ((w32 B.length ++ B ++ (k :: TAIL)).take
      (n - (4 + A.length))) =
      .ok (B, (k :: TAIL).take (n - (4 + A.length) - (4 + B.length))) := by
    rw [readWord_take B _ _ hB, if_neg (by omega), if_neg (by omega),
      if_neg (by omega)]
  have e2 : (k :: TAIL).take (n - (4 + A.length) - (4 + B.length)) =
      k :: TAIL.take (n - (9 + A.length + B.length)) := by
    rw [show n - (4 + A.length) - (4 + B.length) =
      (n - (9 + A.length + B.length)) + 1 from by omega, List.take_succ_cons]
  simp only [decodeTriple, r1, r2, e2, hT, he, if_neg hk]

end binaryDecoder

/-- `decodeTriple` on one encoded triple truncated at any interior offset
`n` errs, naming the field whose wire region contains the cut and the read
error matching the offset into that region. -/
theorem decodeTriple_truncated (t : triple) (n : Nat) (hsm : fieldsSmall t)
    (h0 : 0 < n) (hn : n < (encodeTriple t).length) :
    binaryDecoder.decodeTriple ((encodeTriple t).take n) =
      .err ⟨truncField t n, truncCause t n⟩ := by
  obtain ⟨h1, h2, h3, h4, h5⟩ := hsm
  cases hl : t.obj.isLit
  · have hlen : (encodeTriple t).length =
        13 + t.sub.length + t.pred.length + t.obj.resourceID.length := by
      rw [encodeTriple_eq_res t hl, resFrame_length]
    rw [hlen] at hn
    have hsplit : encodeTriple t = w32 t.sub.length ++ t.sub ++
        (w32 t.pred.length ++ t.pred ++ ((0 : Nat) ::
          (w32 t.obj.resourceID.length ++ t.obj.resourceID ++ ([] : List Nat)))) := by
      rw [encodeTriple_eq_res t hl]
      simp [resFrame]
    rw [hsplit]
    by_cases hfront : n < 9 + t.sub.length + t.pred.length
    · rw [binaryDecoder.decodeTriple_take_front _ _ _ _ _ h1 h2 h0 hfront]
      unfold truncField truncCause truncOff causeOfOff
      simp only [hl]
      split_ifs <;> first | rfl | omega | simp_all
    · have he := binaryDecoder.readWord_take_err t.obj.resourceID []
        (n - (9 + t.sub.length + t.pred.length)) h3 (by omega)
      rw [binaryDecoder.decodeTriple_take_res _ _ _ _ _ h1 h2 (by omega) he]
      unfold truncField truncCause truncOff causeOfOff
      simp only [hl]
      split_ifs <;> first | rfl | omega | simp_all
  · have hlen : (encodeTriple t).length = 17 + t.sub.length + t.pred.length +
        t.obj.lit.typ.length + t.obj.lit.val.length := by
      rw [encodeTriple_eq_lit t hl, litFrame_length]
    rw [hlen] at hn
    have hsplit : encodeTriple t = w32 t.sub.length ++ t.sub ++
        (w32 t.pred.length ++ t.pred ++ ((1 : Nat) ::
          (w32 t.obj.lit.typ.length ++ t.obj.lit.typ ++
            (w32 t.obj.lit.val.length ++ t.obj.lit.val ++ ([] : List Nat))))) := by
      rw [encodeTriple_eq_lit t hl]
      simp [litFrame]
    rw [hsplit]
    by_cases hfront : n < 9 + t.sub.length + t.pred.length
    · rw [binaryDecoder.decodeTriple_take_front _ _ _ _ _ h1 h2 h0 hfront]
      unfold truncField truncCause truncOff causeOfOff
      simp only [hl]
      split_ifs <;> first | rfl | omega | simp_all
    · by_cases htyp : n < 13 + t.sub.length + t.pred.length +
          t.obj.lit.typ.length
      · have he := binaryDecoder.readWord_take_err t.obj.lit.typ
          (w32 t.obj.lit.val.length ++ t.obj.lit.val ++ ([] : List Nat))
          (n - (9 + t.sub.length + t.pred.length)) h4 (by omega)
        rw [binaryDecoder.decodeTriple_take_litType _ _ _ _ _ _ one_ne_zero
          h1 h2 (by omega) he]
        unfold truncField truncCause truncOff causeOfOff
        simp only [hl]
        split_ifs <;> first | rfl | omega | simp_all
      · have hT : binaryDecoder.readWord
            ((w32 t.obj.lit.typ.length ++ t.obj.lit.typ ++
              (w32 t.obj.lit.val.length ++ t.obj.lit.val ++ ([] : List Nat))).take
              (n - (9 + t.sub.length + t.pred.length))) =
            .ok (t.obj.lit.typ,
              (w32 t.obj.lit.val.length ++ t.obj.lit.val ++ ([] : List Nat)).take
                (n - (9 + t.sub.length + t.pred.length) -
                  (4 + t.obj.lit.typ.length))) := by
          rw [binaryDecoder.readWord_take t.obj.lit.typ _ _ h4,
            if_neg (by omega), if_neg (by omega), if_neg (by omega)]
        have he := binaryDecoder.readWord_take_err t.obj.lit.val []
          (n - (9 + t.sub.length + t.pred.length) - (4 + t.obj.lit.typ.length))
          h5 (by omega)
        rw [binaryDecoder.decodeTriple_take_litVal _ _ _ _ _ _ _ _ one_ne_zero
          h1 h2 (by omega) hT he,
          show n - (9 + t.sub.length + t.pred.length) -
              (4 + t.obj.lit.typ.length) =
            n - (13 + t.sub.length + t.pred.length + t.obj.lit.typ.length)
            from by omega]
        unfold truncField truncCause truncOff
        simp only [hl]
        split_ifs <;> first | rfl | omega | simp_all

/-- `Decode` on a valid encoded prefix followed by one truncated triple
fails with the truncated triple's field error and returns no triples. -/
theorem Decode_truncated (pre : List triple) (t : triple) (n : Nat)
    (hpre : ∀ u ∈ pre, fieldsSmall u) (hsm : fieldsSmall t)
    (h0 : 0 < n) (hn : n < (encodeTriple t).length) :
    binaryDecoder.Decode
        (binaryEncoder.Encode pre ++ (encodeTriple t).take n) =
      ([], some ⟨truncField t n, truncCause t n⟩) := by
  rw [Decode_encode_append pre _ hpre,
    binaryDecoder.Decode_err (decodeTriple_truncated t n hsm h0 hn)]

/-! ## Claim theorems -/

/-- C8: triple equality is reflexive and structural — `t.Equal t` always
holds; triples differing in subject or predicate are never `Equal`;
`Equal` holds exactly when subject, predicate and object agree, with
objects comparing by variant, literals by `(type, value)` pair and
resources by identifier string; and a nil triple equals exactly a nil
triple. -/
theorem C8_equal_structural :
    (∀ t : triple, t.Equal t = true) ∧
    (∀ t : Option triple, triple.EqualOpt none t = t.isNone) ∧
    (∀ t : Option triple, triple.EqualOpt t none = t.isNone) ∧
    (∀ t1 t2 : triple, t1.sub ≠ t2.sub → t1.Equal t2 = false) ∧
    (∀ t1 t2 : triple, t1.pred ≠ t2.pred → t1.Equal t2 = false) ∧
    (∀ t1 t2 : triple, t1.Equal t2 = true ↔
      (t1.sub = t2.sub ∧ t1.pred = t2.pred ∧ t1.obj.Equal t2.obj = true)) ∧
    (∀ o1 o2 : object, o1.Equal o2 = true ↔
      (o1.isLit = o2.isLit ∧
        (if o1.isLit then
          o1.lit.typ = o2.lit.typ ∧ o1.lit.val = o2.lit.val
        else o1.resourceID = o2.resourceID))) := by
  have hobj : ∀ o1 o2 : object, o1.Equal o2 = true ↔
      (o1.isLit = o2.isLit ∧
        (if o1.isLit then
          o1.lit.typ = o2.lit.typ ∧ o1.lit.val = o2.lit.val
        else o1.resourceID = o2.resourceID)) := by
    intro o1 o2
    cases h1 : o1.isLit <;> cases h2 : o2.isLit <;>
      simp [object.Equal, h1, h2]
  have htr : ∀ t1 t2 : triple, t1.Equal t2 = true ↔
      (t1.sub = t2.sub ∧ t1.pred = t2.pred ∧ t1.obj.Equal t2.obj = true) := by
    intro t1 t2
    by_cases hs : t1.sub = t2.sub <;> by_cases hp : t1.pred = t2.pred <;>
      simp [triple.Equal, hs, hp]
  refine ⟨?_, ?_, ?_, ?_, ?_, htr, hobj⟩
  · intro t
    rw [htr]
    exact ⟨rfl, rfl, (hobj t.obj t.obj).mpr ⟨rfl, by split_ifs <;> simp⟩⟩
  · intro t; cases t <;> rfl
  · intro t; cases t <;> rfl
  · intro t1 t2 hs
    simp [triple.Equal, hs]
  · intro t1 t2 hp
    by_cases hs : t1.sub = t2.sub <;> simp [triple.Equal, hs, hp]

/-- C8 witness: the structural equality facts at concrete triples. -/
theorem C8_witness :
    (sampleTriples.get ⟨0, by decide⟩).Equal (sampleTriples.get ⟨0, by decide⟩) = true ∧
    triple.EqualOpt none none = Option.isNone (α := triple) none ∧
    triple.EqualOpt (some (sampleTriples.get ⟨0, by decide⟩)) none =
      (some (sampleTriples.get ⟨0, by decide⟩)).isNone ∧
    (sampleTriples.get ⟨0, by decide⟩).Equal (sampleTriples.get ⟨1, by decide⟩) = false := by
  refine ⟨C8_equal_structural.1 _, C8_equal_structural.2.1 none,
    C8_equal_structural.2.2.1 _, C8_equal_structural.2.2.2.1 _ _ (by decide)⟩

/-- C5: snapshot isolation — with the store modelled from the spec, a
snapshot taken before `Add` still counts the old `N` triples afterwards,
while a fresh snapshot of the grown source counts `N + M`. -/
theorem C5_snapshot_isolation (src : Source) (more : List triple) (N : Nat)
    (h : (Source.Snapshot src).Count = N) :
    (Source.Snapshot src).Count = N ∧
    (Source.Snapshot (Source.Add src more)).Count = N + more.length := by
  refine ⟨h, ?_⟩
  simp only [Source.Snapshot, Source.Add, Snapshot.Count,
    List.length_append, ← h]

/-- C5 witness: a source with the 8 sample triples, snapshot count 8, add
the same 8 again, fresh snapshot count 16. -/
theorem C5_witness :
    (Source.Snapshot ⟨sampleTriples⟩).Count = 8 ∧
    (Source.Snapshot (Source.Add ⟨sampleTriples⟩ sampleTriples)).Count =
      8 + sampleTriples.length :=
  C5_snapshot_isolation ⟨sampleTriples⟩ sampleTriples 8 (by decide)

/-- C10: the binary decoder treats every nonzero object-kind byte as the
literal marker — a frame with any kind byte `k ≠ 0` decodes successfully
to a literal triple, never to an error. -/
theorem C10_nonzero_kind_is_literal (k : Nat) (sub pred typ val : List Nat)
    (hk : k ≠ 0) (hs : sub.length < 2 ^ 32) (hp : pred.length < 2 ^ 32)
    (ht : typ.length < 2 ^ 32) (hv : val.length < 2 ^ 32) :
    binaryDecoder.Decode (litFrame k sub pred typ val) =
      ([⟨sub, pred, ⟨true, [], ⟨typ, val⟩⟩⟩], none) := by
  have hd := binaryDecoder.decodeTriple_litFrame k sub pred typ val []
    hk hs hp ht hv
  rw [List.append_nil] at hd
  rw [binaryDecoder.Decode_cons hd, binaryDecoder.Decode_nil]

/-- C10 witness: kind byte `2` decodes as a literal, not as an error. -/
theorem C10_witness :
    binaryDecoder.Decode (litFrame 2 (str "s") (str "p") (str "ty") (str "v")) =
      ([⟨str "s", str "p", ⟨true, [], ⟨str "ty", str "v"⟩⟩⟩], none) :=
  C10_nonzero_kind_is_literal 2 _ _ _ _ (by decide) (by decide) (by decide)
    (by decide) (by decide)

/-- C9: whenever `Decode` returns an error it returns no triples at all —
triples decoded earlier in the same call are discarded. -/
theorem C9_error_discards_triples (s : List Nat) (e : DecErr)
    (h : (binaryDecoder.Decode s).2 = some e) :
    (binaryDecoder.Decode s).1 = [] := by
  rcases hd : binaryDecoder.Decode s with ⟨l, e2⟩
  rw [hd] at h
  cases e2
  · exact Option.noConfusion h
  · exact binaryDecoder.decodeLoop_err_nil hd

/-- C9 witness: one valid frame followed by a single junk byte — the frame
alone decodes to one triple, but with the junk byte appended the decode
errs and the already-decoded triple is discarded. -/
theorem C9_witness :
    (binaryDecoder.Decode
      (encodeTriple ⟨str "s", str "p", ⟨false, str "r", ⟨[], []⟩⟩⟩ ++ [5])).1 =
      [] ∧
    (binaryDecoder.Decode
      (encodeTriple ⟨str "s", str "p", ⟨false, str "r", ⟨[], []⟩⟩⟩)).1 =
      [⟨str "s", str "p", ⟨false, str "r", ⟨[], []⟩⟩⟩] := by
  refine ⟨C9_error_discards_triples _ ⟨.subject, .unexpectedEOF⟩ (by decide),
    by decide⟩

/-- C7: the N-Triples encoder emits, per triple, exactly one record of the
form `<subject> <predicate> ` + (`<resource>` or `"value"` + suffix) +
` .\n`, where only the boolean, dateTime and integer tags receive their
canonical XML-Schema datatype IRI suffix and every other tag — `XsdString`
and unrecognized custom tags included — receives none. -/
theorem C7_ntriples_format :
    (∀ t : triple, ntriplesEncoder.encodeLine t =
      str "<" ++ t.sub ++ str "> <" ++ t.pred ++ str "> " ++
      (if t.obj.isLit then
        str "\"" ++ t.obj.lit.val ++ str "\"" ++
          ntriplesEncoder.ntSuffix t.obj.lit.typ
      else str "<" ++ t.obj.resourceID ++ str ">") ++ str " .\n") ∧
    (∀ tris : List triple, ntriplesEncoder.Encode tris =
      (tris.map ntriplesEncoder.encodeLine).flatten) ∧
    ntriplesEncoder.ntSuffix XsdBoolean =
      str "^^<http://www.w3.org/2001/XMLSchema#boolean>" ∧
    ntriplesEncoder.ntSuffix XsdDateTime =
      str "^^<http://www.w3.org/2001/XMLSchema#dateTime>" ∧
    ntriplesEncoder.ntSuffix XsdInteger =
      str "^^<http://www.w3.org/2001/XMLSchema#integer>" ∧
    ntriplesEncoder.ntSuffix XsdString = [] ∧
    (∀ typ : List Nat, typ ≠ XsdBoolean → typ ≠ XsdDateTime →
      typ ≠ XsdInteger → ntriplesEncoder.ntSuffix typ = []) := by
  refine ⟨?_, fun tris => rfl, by decide, by decide, by decide, by decide, ?_⟩
  · intro t
    cases hl : t.obj.isLit <;>
      simp [ntriplesEncoder.encodeLine, hl, List.append_assoc]
  · intro typ hb hd hi
    simp only [ntriplesEncoder.ntSuffix, if_neg hb, if_neg hd, if_neg hi]

/-- C7 witness: the format facts at a concrete custom-typed literal. -/
theorem C7_witness :
    ntriplesEncoder.ntSuffix (str "custom") = [] ∧
    ntriplesEncoder.encodeLine ⟨str "a", str "b", ⟨false, str "r", ⟨[], []⟩⟩⟩ =
      str "<" ++ str "a" ++ str "> <" ++ str "b" ++ str "> " ++
      (str "<" ++ str "r" ++ str ">") ++ str " .\n" := by
  refine ⟨C7_ntriples_format.2.2.2.2.2.2 (str "custom") (by decide) (by decide)
    (by decide), ?_⟩
  have h := C7_ntriples_format.1 ⟨str "a", str "b", ⟨false, str "r", ⟨[], []⟩⟩⟩
  simpa using h

/-- C1 (amended): the binary round-trip holds for every list of triples
all of whose fields are shorter than `2^32` bytes — encode then decode
succeeds and returns a list multiset-equal (under `Triple.Equal`) to the
input.  (The unamended claim fails for a `2^32`-byte subject, whose
length wraps in the `uint32` prefix; see `C1_counterexample`.) -/
theorem C1_roundtrip_small_fields (ts : List triple)
    (h : ∀ t ∈ ts, fieldsSmall t) : roundTripOK ts = true := by
  unfold roundTripOK
  rw [Decode_encode ts h]
  exact multisetEqual_canon ts

/-- C1 witness: the round trip on the sample list covering a resource
object, every canonical literal tag, a custom tag, and empty fields. -/
theorem C1_witness :
    (∀ t ∈ sampleTriples, fieldsSmall t) ∧ roundTripOK sampleTriples = true :=
  ⟨by decide, C1_roundtrip_small_fields sampleTriples (by decide)⟩

/-- Round-trip failure for any triple whose subject overflows the
`uint32` length prefix: every subject the decoder hands back was read
against an in-range length word, so nothing in the decoded list can be
`Equal` to the oversized triple. -/
theorem roundTripOK_big_false (t : triple) (hbig : 2 ^ 32 ≤ t.sub.length)
    (hv : byteValid (binaryEncoder.Encode [t])) :
    roundTripOK [t] = false := by
  unfold roundTripOK
  rcases hD : binaryDecoder.Decode (binaryEncoder.Encode [t]) with ⟨l, e⟩
  cases e
  · cases hm : multisetEqual l [t]
    · exact hm
    · exfalso
      rcases hrf : removeFirst t l with _ | l2
      · rw [multisetEqual, hrf] at hm
        exact Bool.noConfusion hm
      · obtain ⟨u, hu, heq⟩ := removeFirst_some hrf
        have hsubeq : u.sub = t.sub := by
          by_cases hsx : t.sub = u.sub
          · exact hsx.symm
          · simp [triple.Equal, hsx] at heq
        have hlt := Decode_subs_small hv hD u hu
        rw [hsubeq] at hlt
        omega
  · rfl

/-- C1 counterexample: for the triple whose subject is `2^32` zero bytes
the round trip fails — `wordLength(len(sub))` wraps to `0`, so the
decoder can never hand back a triple with a `2^32`-byte subject, while
`Triple.Equal` compares subjects exactly. -/
theorem C1_counterexample : roundTripOK [bigTriple] = false := by
  have hsub : byteValid bigTriple.sub := by
    intro x hx
    simp only [bigTriple] at hx
    have hx0 : x = 0 := List.eq_of_mem_replicate hx
    omega
  have hnil : byteValid ([] : List Nat) := by
    intro x hx
    simp at hx
  refine roundTripOK_big_false bigTriple ?_ ?_
  · exact le_of_eq (List.length_replicate _ _).symm
  · intro b hb
    simp only [binaryEncoder.Encode, List.map_cons, List.map_nil,
      List.flatten_cons, List.flatten_nil, List.append_nil] at hb
    exact encodeTriple_bytes bigTriple hsub hnil hnil hnil hnil b hb

/-- C2: the binary `Decode` terminates cleanly exactly when end-of-stream
is hit while reading a subject-length prefix at a triple boundary — it
succeeds on the empty input with no triples, and on a byte stream it
succeeds iff the stream is a concatenation of complete triple frames; any
other truncation point errs. -/
theorem C2_clean_stop_at_boundary :
    binaryDecoder.Decode ([] : List Nat) = ([], none) ∧
    ∀ s : List Nat, byteValid s →
      ((binaryDecoder.Decode s).2 = none ↔ Frames s) := by
  refine ⟨rfl, fun s hv => ⟨?_, frames_Decode_none s⟩⟩
  exact Decode_none_frames s.length s le_rfl hv

/-- C2 witness: a single resource frame is a frame stream and decodes
with no error. -/
theorem C2_witness :
    (binaryDecoder.Decode (resFrame (str "a") (str "b") (str "r"))).2 =
      none ∧
    Frames (resFrame (str "a") (str "b") (str "r")) := by
  have h0 := Frames.res (str "a") (str "b") (str "r") []
    (by decide) (by decide) (by decide) Frames.nil
  rw [List.append_nil] at h0
  exact ⟨(C2_clean_stop_at_boundary.2 _ (by decide)).mpr h0, h0⟩

/-- C3: a binary stream truncated inside a field — at any interior offset
`n` of a triple's frame, after any number of complete frames — makes
`Decode` fail with the error of the field whose wire region holds the
cut; and the six Go error messages determine the field (they have six
distinct prefixes, `"literate type"`/`"literate"` typos included). -/
theorem C3_truncation_names_field :
    (∀ (pre : List triple) (t : triple) (n : Nat),
      (∀ u ∈ pre, fieldsSmall u) → fieldsSmall t →
      0 < n → n < (encodeTriple t).length →
      binaryDecoder.Decode
          (binaryEncoder.Encode pre ++ (encodeTriple t).take n) =
        ([], some ⟨truncField t n, truncCause t n⟩)) ∧
    (∀ e1 e2 : DecErr, e1.message = e2.message → e1.field = e2.field) := by
  refine ⟨fun pre t n hpre hsm h0 hn =>
    Decode_truncated pre t n hpre hsm h0 hn, ?_⟩
  intro e1 e2 h
  rcases e1 with ⟨f1, c1⟩
  rcases e2 with ⟨f2, c2⟩
  revert h
  cases f1 <;> cases f2 <;> cases c1 <;> cases c2 <;>
    first | (intro h; rfl) | decide

/-- C3 witness: a valid resource frame followed by a literal frame cut 20
bytes in — inside its literal-type word — errs naming the literal type. -/
theorem C3_witness :
    binaryDecoder.Decode
        (binaryEncoder.Encode [⟨str "a", str "b", ⟨false, str "r", ⟨[], []⟩⟩⟩] ++
          (encodeTriple ⟨str "s2", str "p2",
            ⟨true, [], ⟨XsdString, str "v"⟩⟩⟩).take 20) =
      ([], some ⟨truncField ⟨str "s2", str "p2",
        ⟨true, [], ⟨XsdString, str "v"⟩⟩⟩ 20,
        truncCause ⟨str "s2", str "p2",
          ⟨true, [], ⟨XsdString, str "v"⟩⟩⟩ 20⟩) ∧
    truncField ⟨str "s2", str "p2", ⟨true, [], ⟨XsdString, str "v"⟩⟩⟩ 20 =
      .literalType ∧
    Field.subject = Field.subject := by
  refine ⟨C3_truncation_names_field.1 _ _ 20 (by decide) (by decide)
    (by decide) (by decide), by decide,
    C3_truncation_names_field.2 ⟨.subject, .eof⟩ ⟨.subject, .eof⟩ rfl⟩

/-- C4: the dataset decoder concatenates every stream's decoded triples
regardless of other streams' failures and surfaces exactly one
representative error when any stream fails; over a valid stream and a
truncated one it returns exactly the valid stream's triples (multiset-equal
to the encoded list) plus a non-nil error. -/
theorem C4_dataset_partial_success :
    (∀ (d : List Nat → List triple × Option DecErr) (rs : List (List Nat)),
      (datasetDecoder.Decode d rs).1 =
        (rs.map (fun r => (d r).1)).flatten) ∧
    (∀ (d : List Nat → List triple × Option DecErr) (rs : List (List Nat)),
      (datasetDecoder.Decode d rs).2 = none ↔ ∀ r ∈ rs, (d r).2 = none) ∧
    (∀ (d : List Nat → List triple × Option DecErr) (rs : List (List Nat))
      (e : DecErr), (datasetDecoder.Decode d rs).2 = some e →
      ∃ r ∈ rs, (d r).2 = some e) ∧
    (∀ (ts : List triple) (bad : List Nat) (e : DecErr),
      (∀ t ∈ ts, fieldsSmall t) → (binaryDecoder.Decode bad).2 = some e →
      (datasetDecoder.Decode binaryDecoder.Decode
          [binaryEncoder.Encode ts, bad]).1 = ts.map canon ∧
      multisetEqual (datasetDecoder.Decode binaryDecoder.Decode
          [binaryEncoder.Encode ts, bad]).1 ts = true ∧
      (datasetDecoder.Decode binaryDecoder.Decode
          [binaryEncoder.Encode ts, bad]).2 = some e) := by
  refine ⟨fun d rs => by
    simp [datasetDecoder.Decode, List.map_map, Function.comp_def], ?_, ?_, ?_⟩
  · intro d rs
    simp [datasetDecoder.Decode, List.head?_eq_none_iff,
      List.filterMap_eq_nil_iff]
  · intro d rs e h
    simp only [datasetDecoder.Decode] at h
    have hmem : e ∈ (rs.map d).filterMap Prod.snd := by
      rcases hl : (rs.map d).filterMap Prod.snd with _ | ⟨x, xs⟩
      · rw [hl] at h
        exact Option.noConfusion h
      · rw [hl] at h
        obtain rfl : x = e := by
          simpa using h
        simp
    obtain ⟨p, hp, hpe⟩ := List.mem_filterMap.mp hmem
    obtain ⟨r, hr, rfl⟩ := List.mem_map.mp hp
    exact ⟨r, hr, hpe⟩
  · intro ts bad e hts hbad
    rcases hb : binaryDecoder.Decode bad with ⟨lb, eb⟩
    rw [hb] at hbad
    have hlb : lb = [] := by
      cases eb
      · exact Option.noConfusion hbad
      · exact binaryDecoder.decodeLoop_err_nil hb
    obtain rfl : eb = some e := hbad
    subst hlb
    refine ⟨?_, ?_, ?_⟩
    · simp [datasetDecoder.Decode, Decode_encode ts hts, hb]
    · rw [show (datasetDecoder.Decode binaryDecoder.Decode
          [binaryEncoder.Encode ts, bad]).1 = ts.map canon from by
        simp [datasetDecoder.Decode, Decode_encode ts hts, hb]]
      exact multisetEqual_canon ts
    · simp [datasetDecoder.Decode, Decode_encode ts hts, hb]

/-- C4 witness: one valid single-triple stream plus the truncated stream
`[1, 2]` — the result is exactly the valid stream's triple and the
truncated stream's error. -/
theorem C4_witness :
    (datasetDecoder.Decode binaryDecoder.Decode
        [binaryEncoder.Encode [⟨str "a", str "b", ⟨false, str "r", ⟨[], []⟩⟩⟩],
          [1, 2]]).1 =
      [⟨str "a", str "b", ⟨false, str "r", ⟨[], []⟩⟩⟩].map canon ∧
    (datasetDecoder.Decode binaryDecoder.Decode
        [binaryEncoder.Encode [⟨str "a", str "b", ⟨false, str "r", ⟨[], []⟩⟩⟩],
          [1, 2]]).2 = some ⟨.subject, .unexpectedEOF⟩ := by
  have h := C4_dataset_partial_success.2.2.2
    [⟨str "a", str "b", ⟨false, str "r", ⟨[], []⟩⟩⟩] [1, 2]
    ⟨.subject, .unexpectedEOF⟩ (by decide) (by decide)
  exact ⟨h.1, h.2.2⟩

/-- The modelled lexer read agrees with every case of `TestLexerReadIRI`
in the repository's test file, including the escaped-IRI cases of
`TestLexer`. -/
theorem readIRI_matches_tests :
    readIRI "<".toList = "".toList ∧
    readIRI ">".toList = "".toList ∧
    readIRI "".toList = "".toList ∧
    readIRI "z".toList = "".toList ∧
    readIRI "subject>".toList = "subject".toList ∧
    readIRI "s  ubject>".toList = "s  ubject".toList ∧
    readIRI "subject>   <".toList = "subject".toList ∧
    readIRI "    subject>   <".toList = "    subject".toList ∧
    readIRI "subject><".toList = "subject".toList ∧
    readIRI "subje   ct><".toList = "subje   ct".toList ∧
    readIRI "sub>ject>".toList = "sub>ject".toList ∧
    readIRI "sub > ject>".toList = "sub > ject".toList ∧
    readIRI "sub>ject>      ".toList = "sub>ject".toList ∧
    readIRI "subject".toList = "".toList ∧
    readIRI "pred>   \"".toList = "pred".toList ∧
    readIRI "pred>\"".toList = "pred".toList ∧
    readIRI "resource>.".toList = "resource".toList ∧
    readIRI "resource> .".toList = "resource".toList ∧
    readIRI "resource>> .".toList = "resource>".toList ∧
    readIRI "resource>  .   ".toList = "resource".toList ∧
    readIRI "no>de>".toList = "no>de".toList ∧
    readIRI "no\\>de>".toList = "no\\>de".toList ∧
    readIRI "node\\\\>".toList = "node\\\\".toList := by
  decide

/-- The modelled lexer read agrees with every case of
`TestLexerReadStringLiteral` in the repository's test file, including the
escaped-literal cases of `TestLexer`. -/
theorem readStringLiteral_matches_tests :
    readStringLiteral "".toList = "".toList ∧
    readStringLiteral "\"".toList = "".toList ∧
    readStringLiteral "z".toList = "".toList ∧
    readStringLiteral "lit\"".toList = "lit".toList ∧
    readStringLiteral "l it\"".toList = "l it".toList ∧
    readStringLiteral "li\"t\"".toList = "li\"t".toList ∧
    readStringLiteral "li \"t\"".toList = "li \"t".toList ∧
    readStringLiteral "li\"t\" .".toList = "li\"t".toList ∧
    readStringLiteral "li\"t\".".toList = "li\"t".toList ∧
    readStringLiteral "li\"t\"  .  ".toList = "li\"t".toList ∧
    readStringLiteral "li\"t\"^".toList = "li\"t".toList ∧
    readStringLiteral "li\"t\"^^".toList = "li\"t".toList ∧
    readStringLiteral "li\"t\" ^".toList = "li\"t".toList ∧
    readStringLiteral "li\"t\" ^^".toList = "li\"t".toList ∧
    readStringLiteral "li\"t\"   ^".toList = "li\"t".toList ∧
    readStringLiteral "li\"t\"     ^^".toList = "li\"t".toList ∧
    readStringLiteral "\\\\\"".toList = "\\\\".toList ∧
    readStringLiteral "quot\"ed\"".toList = "quot\"ed".toList ∧
    readStringLiteral "quot\\\"ed\"".toList = "quot\\\"ed".toList := by
  decide

/-- C6 (amended): in the bounded reads of an IRI body and a string-literal
body, an unescaped terminator ends the token iff the look-ahead that skips
any run of whitespace lands on end-of-input, `.`, `<`, `"` or `^` — the
terminator is then consumed and excluded; otherwise the terminator is
ordinary content and scanning continues, so `<sub>ject>` reads `sub>ject`
and `<sub > ject>` reads `sub > ject`. -/
theorem C6_terminator_lookahead :
    (∀ rest : List Char, isTermDelim rest = true →
      readBounded '>' ('>' :: rest) = some [] ∧
      readBounded '"' ('"' :: rest) = some []) ∧
    (∀ rest : List Char, isTermDelim rest = false →
      readBounded '>' ('>' :: rest) =
        (readBounded '>' rest).map (fun w => '>' :: w) ∧
      readBounded '"' ('"' :: rest) =
        (readBounded '"' rest).map (fun w => '"' :: w)) ∧
    isTermDelim [] = true ∧
    (∀ (d : Char) (rest : List Char), isTermDelim (d :: rest) =
      if isWhitespaceChar d then isTermDelim rest
      else (d = '.' || d = '<' || d = '"' || d = '^')) ∧
    readIRI "sub>ject>".toList = "sub>ject".toList ∧
    readIRI "sub > ject>".toList = "sub > ject".toList := by
  refine ⟨?_, ?_, rfl, fun d rest => rfl, by decide, by decide⟩
  · intro rest h
    cases rest with
    | nil => constructor <;> simp [readBounded, h]
    | cons d rest => constructor <;> simp [readBounded, h]
  · intro rest h
    cases rest with
    | nil => simp [isTermDelim] at h
    | cons d rest => constructor <;> simp [readBounded, h]

/-- C6 witness: the look-ahead rule at concrete inputs — a space then
end-of-input confirms the terminator, a following letter keeps it as
content. -/
theorem C6_witness :
    (readBounded '>' ('>' :: [' ']) = some [] ∧
     readBounded '"' ('"' :: [' ']) = some []) ∧
    (readBounded '>' ('>' :: ['x']) =
      (readBounded '>' ['x']).map (fun w => '>' :: w) ∧
     readBounded '"' ('"' :: ['x']) =
      (readBounded '"' ['x']).map (fun w => '"' :: w)) :=
  ⟨C6_terminator_lookahead.1 [' '] (by decide),
   C6_terminator_lookahead.2.1 ['x'] (by decide)⟩

/-- C6 counterexample: the claim's literal one-character look-ahead
(whitespace directly after the terminator always ends the token, and `^`
never does) contradicts the lexer behaviour pinned by the repository's own
test `{"sub > ject>", "sub > ject"}`: the one-character rule stops at the
first `>` and yields `sub `, the test-validated read yields `sub > ject`. -/
theorem C6_counterexample :
    readIRI ("sub > ject>".toList) = "sub > ject".toList ∧
    readIRIOneChar ("sub > ject>".toList) = "sub ".toList ∧
    readIRI ("sub > ject>".toList) ≠ readIRIOneChar ("sub > ject>".toList) := by
  refine ⟨by decide, by decide, by decide⟩

end Triplestore
